import Mathlib

/-!
Shallow embedding of `src/deploy/durable_objects.rs` (Durable Object namespace
reconciliation) from the wrangler repository.  Pure data flow is translated
directly; the HTTP transport is abstracted into response oracles passed as
arguments, and the `RefCell<HashMap<..>>` registry becomes an explicitly
threaded function from names to records.  Remote mutating calls are reified
into a trace (`DurableObjectCreateNSRequest` lists / `RemoteCall` lists) so
that properties about which calls are issued can be stated.
-/

/-- `ApiDurableObjectNSResponse` from the source: one remote namespace record.
The Rust field `class` is a reserved word in Lean and is spelled `cls` here. -/
structure ApiDurableObjectNSResponse where
  name : String
  id : String
  script : Option String
  cls : Option String
deriving DecidableEq, Repr

/-- `DurableObjectNSImpl` from the source: the script/class payload of a
create or update request.  Rust field `class` is spelled `cls`. -/
structure DurableObjectNSImpl where
  script : String
  cls : String
deriving DecidableEq, Repr

/-- `DurableObjectCreateNSRequest` from the source. -/
structure DurableObjectCreateNSRequest where
  name : String
  implementation : Option DurableObjectNSImpl
deriving DecidableEq, Repr

/-- An entry of `durable_objects.implements` (type inferred from its uses in
`deploy`: fields `namespace_name` and `class_name`). -/
structure DurableObjectNamespaceImpl where
  namespace_name : String
  class_name : String
deriving DecidableEq, Repr

/-- An entry of `durable_objects.uses` and of
`target.used_durable_object_namespaces` (type inferred from its uses in
`init_self_referential_namespaces` and `hydrate_target_with_ns_ids`:
optional declared name, optional resolved identifier). -/
structure UsedBinding where
  namespace_name : Option String
  namespace_id : Option String
deriving DecidableEq, Repr

/-- `DurableObjects` from the source: the declared implemented and used
namespaces of one deployment unit. -/
structure DurableObjects where
  implements : Option (List DurableObjectNamespaceImpl)
  uses : Option (List UsedBinding)
deriving DecidableEq, Repr

/-- The in-memory registry `existing_namespaces: HashMap<String, ApiDurableObjectNSResponse>`,
modelled as a function from keys to optional records (exactly the lookup
behaviour of the hash map; iteration over the map is never used by the
source except for a membership test). -/
def Registry : Type := String → Option ApiDurableObjectNSResponse

/-- The empty hash map. -/
def emptyReg : Registry := fun _ => none

/-- `HashMap::insert`: later insertions overwrite earlier ones at the same key. -/
def insertReg (m : Registry) (k : String) (v : ApiDurableObjectNSResponse) : Registry :=
  fun x => if x = k then some v else m x

/-- `list_namespaces_by_name_to_id`, given the listed records: builds the
name-to-record map by inserting each record keyed by its name, in listing
order (so for duplicate names the last record wins, as with `HashMap::insert`). -/
def list_namespaces_by_name_to_id (namespaces : List ApiDurableObjectNSResponse) : Registry :=
  namespaces.foldl (fun m r => insertReg m r.name r) emptyReg

/-- A remote mutating call issued by `deploy`. -/
inductive RemoteCall where
  | create (req : DurableObjectCreateNSRequest)
  | update (namespace_id : String) (body : DurableObjectNSImpl)
deriving DecidableEq, Repr

/-- The filter closure of `deploy`'s `new_namespaces`:
`!existing_namespaces.contains_key(&ns.namespace_name)`. -/
def isNewNS (existing_namespaces : Registry) (ns : DurableObjectNamespaceImpl) : Bool :=
  !(existing_namespaces ns.namespace_name).isSome

/-- The filter-map closure of `deploy`'s `update_namespaces`: an implemented
namespace already in the registry whose recorded script or class differs from
the declaration yields the record's id paired with the declaration. -/
def staleEntry (script_name : String) (existing_namespaces : Registry)
    (ns : DurableObjectNamespaceImpl) : Option (String × DurableObjectNamespaceImpl) :=
  match existing_namespaces ns.namespace_name with
  | some current =>
    if current.script ≠ some script_name ∨ current.cls ≠ some ns.class_name then
      some (current.id, ns)
    else
      none
  | none => none

/-- `DurableObjectsTarget::deploy`: classifies each implemented namespace
against the registry.  Returns the `updated_namespaces` name list that the
source returns, paired with the trace of remote calls the source issues via
`create_ns` / `update_ns` (creates first, then updates, exactly as the two
source loops run). -/
def deploy (script_name : String) (dos : DurableObjects) (existing_namespaces : Registry) :
    List String × List RemoteCall :=
  let impls := dos.implements.getD []
  let new_namespaces := impls.filter (isNewNS existing_namespaces)
  let update_namespaces := impls.filterMap (staleEntry script_name existing_namespaces)
  (new_namespaces.map (fun ns => ns.namespace_name)
      ++ update_namespaces.map (fun p => p.2.namespace_name),
    new_namespaces.map (fun ns =>
      RemoteCall.create ⟨ns.namespace_name, some ⟨script_name, ns.class_name⟩⟩)
      ++ update_namespaces.map (fun p => RemoteCall.update p.1 ⟨script_name, p.2.class_name⟩))

/-- The error message of `hydrate_target_with_ns_ids`'s `bail!`. -/
def nsNotFoundMsg (name : String) : String :=
  "durable object namespace with name " ++ name ++ " was not found in your account."

/-- `DurableObjectsTarget::hydrate_target_with_ns_ids`: walks the used
bindings in order; a binding with a declared name and an unset identifier is
resolved through the registry, and the whole phase fails at the first such
binding whose name the registry does not know. -/
def hydrate_target_with_ns_ids (existing : Registry) :
    List UsedBinding → Except String (List UsedBinding)
  | [] => .ok []
  | ns :: rest =>
    match ns.namespace_name with
    | some name =>
      if ns.namespace_id.isNone then
        match (existing name).map (fun r => r.id) with
        | some i =>
          match hydrate_target_with_ns_ids existing rest with
          | .ok rest' => .ok ({ ns with namespace_id := some i } :: rest')
          | .error e => .error e
        | none => .error (nsNotFoundMsg name)
      else
        match hydrate_target_with_ns_ids existing rest with
        | .ok rest' => .ok (ns :: rest')
        | .error e => .error e
    | none =>
      match hydrate_target_with_ns_ids existing rest with
      | .ok rest' => .ok (ns :: rest')
      | .error e => .error e

/-- The create-call loop of `init_self_referential_namespaces`: for each name
(the to-create list was snapshotted before the loop runs, as in the source,
where `existing_namespace_names` is collected into a `Vec` first), issue a
create call through the oracle `createEnv` (its `Nat` argument is the index
of the call) and insert the returned record into the registry.  The source
inserts the record keyed by `new_ns.id` — `insert(new_ns.id.clone(), new_ns)` —
and that is reproduced verbatim here. -/
def runSelfRefCreates
    (createEnv : Nat → DurableObjectCreateNSRequest → Except String ApiDurableObjectNSResponse)
    (k : Nat) :
    List String → Registry → Except String (Registry × List DurableObjectCreateNSRequest)
  | [], existing => .ok (existing, [])
  | name :: rest, existing =>
    match createEnv k ⟨name, none⟩ with
    | .error e => .error e
    | .ok new_ns =>
      match runSelfRefCreates createEnv (k + 1) rest (insertReg existing new_ns.id new_ns) with
      | .error e => .error e
      | .ok (reg, creates) => .ok (reg, ⟨name, none⟩ :: creates)

/-- `DurableObjectsTarget::init_self_referential_namespaces`.  Note that the
source computes `implemented_namespace_names` by iterating
`self.durable_objects.uses` (not `implements`); that is reproduced verbatim.
The membership test against `existing_namespace_names` (a snapshot `Vec` of
the map's keys) is modelled as a lookup in the registry taken before any
create call runs, which is exactly the snapshot the source captures. -/
def init_self_referential_namespaces
    (createEnv : Nat → DurableObjectCreateNSRequest → Except String ApiDurableObjectNSResponse)
    (dos : DurableObjects) (existing : Registry) :
    Except String (Registry × List DurableObjectCreateNSRequest) :=
  let implemented_namespace_names := (dos.uses.getD []).filterMap (fun ns => ns.namespace_name)
  let new_self_referential_namespace_names := (dos.uses.getD []).filterMap (fun ns =>
    ns.namespace_name.bind (fun name =>
      if implemented_namespace_names.contains name && !(existing name).isSome then
        some name
      else
        none))
  runSelfRefCreates createEnv 0 new_self_referential_namespace_names existing

/-- `DurableObjectsTarget::pre_upload`: refresh the registry from the listing
response, run the cycle-breaker, then hydrate the used bindings.  The listing
and create network calls are abstracted into the `listResp` / `createEnv`
oracles.  Returns the hydrated bindings, the final registry and the trace of
placeholder create requests. -/
def pre_upload
    (listResp : Except String (List ApiDurableObjectNSResponse))
    (createEnv : Nat → DurableObjectCreateNSRequest → Except String ApiDurableObjectNSResponse)
    (dos : DurableObjects) (used : List UsedBinding) :
    Except String (List UsedBinding × Registry × List DurableObjectCreateNSRequest) :=
  match listResp with
  | .error e => .error e
  | .ok namespaces =>
    let existing := list_namespaces_by_name_to_id namespaces
    match init_self_referential_namespaces createEnv dos existing with
    | .error e => .error e
    | .ok (existing2, creates) =>
      match hydrate_target_with_ns_ids existing2 used with
      | .error e => .error e
      | .ok used2 => .ok (used2, existing2, creates)

/-! Low-level remote-call helpers (`create_ns`, `update_ns`, `list_namespaces`).
The HTTP response is modelled by its success flag, rendered status, body text
and the outcome of deserializing the body (`none` when the body cannot be
parsed into the expected shape, mirroring a failing `res.json::<T>()?`). -/

/-- An HTTP response as observed by the remote-call helpers. -/
structure ApiResponse (α : Type) where
  success : Bool
  status : String
  text : String
  parsed : Option α
deriving Repr

/-- Error outcomes of the remote-call helpers: `remote` carries the full
`bail!` message of a non-success status, `malformed` marks a success response
whose body failed to deserialize (`res.json::<T>()?` erring), and
`missingResult` carries the `err_msg` text for a success response whose
parsed body lacks its `result`. -/
inductive ApiError where
  | remote (msg : String)
  | malformed
  | missingResult (msg : String)
deriving DecidableEq, Repr

/-- Rendering of `{:?}` for `DurableObjectNSImpl` (the exact text is
irrelevant to every claim; only its presence in messages is). -/
def reprNSImpl (b : DurableObjectNSImpl) : String :=
  "DurableObjectNSImpl(script: " ++ b.script ++ ", class: " ++ b.cls ++ ")"

/-- Rendering of `{:?}` for `DurableObjectCreateNSRequest`. -/
def reprCreateReq (r : DurableObjectCreateNSRequest) : String :=
  "DurableObjectCreateNSRequest(name: " ++ r.name ++ ", implementation: "
    ++ (match r.implementation with
        | some i => "Some(" ++ reprNSImpl i ++ ")"
        | none => "None")
    ++ ")"

/-- The `bail!` message of `create_ns` and `update_ns`:
format string "Something went wrong! Status: ..., Details ..., body: ...",
filled with the status, the response text, and the debug-rendered request body. -/
def bailMsgBody (status text body : String) : String :=
  "Something went wrong! Status: " ++ status ++ ", Details " ++ text ++ ", body: " ++ body

/-- The `bail!` message of `list_namespaces` (no request body). -/
def bailMsgList (status text : String) : String :=
  "Something went wrong! Status: " ++ status ++ ", Details " ++ text

/-- `create_ns`, given the HTTP response to the POST: non-success statuses
become a `remote` error carrying status, response text and request body;
a success body that fails to parse is `malformed`; a parsed success body
without a `result` is the dedicated `err_msg` error; otherwise the record is
returned. -/
def create_ns (body : DurableObjectCreateNSRequest)
    (resp : ApiResponse (Option ApiDurableObjectNSResponse)) :
    Except ApiError ApiDurableObjectNSResponse :=
  if resp.success = false then
    .error (.remote (bailMsgBody resp.status resp.text (reprCreateReq body)))
  else
    match resp.parsed with
    | none => .error .malformed
    | some none =>
      .error (.missingResult "durable object not returned from create call despite success status")
    | some (some result) => .ok result

/-- `update_ns`, given the HTTP response to the PUT: non-success statuses
become a `remote` error carrying status, response text and request body;
a success response is accepted without reading its body. -/
def update_ns (body : DurableObjectNSImpl) (resp : ApiResponse Unit) :
    Except ApiError Unit :=
  if resp.success = false then
    .error (.remote (bailMsgBody resp.status resp.text (reprNSImpl body)))
  else
    .ok ()

/-- `list_namespaces`, given the HTTP response to the GET: non-success
statuses become a `remote` error carrying status and response text; a success
body that fails to parse is `malformed`; a parsed success body substitutes an
empty listing for a missing `result` (`unwrap_or_default`). -/
def list_namespaces (resp : ApiResponse (Option (List ApiDurableObjectNSResponse))) :
    Except ApiError (List ApiDurableObjectNSResponse) :=
  if resp.success = false then
    .error (.remote (bailMsgList resp.status resp.text))
  else
    match resp.parsed with
    | none => .error .malformed
    | some r => .ok (r.getD [])

/-! A model of the remote directory, used to state the idempotence claim:
a create call appends a record whose id is drawn from the remote's id
supply, and an update call rewrites the script/class of the record with the
addressed id (as `update_ns` does remotely). -/

/-- The remote directory plus the counter indexing the next assigned id. -/
structure RemoteState where
  dir : List ApiDurableObjectNSResponse
  ctr : Nat
deriving Repr

/-- The record the remote creates for a create request, with the assigned id. -/
def mkCreatedRecord (req : DurableObjectCreateNSRequest) (idStr : String) :
    ApiDurableObjectNSResponse :=
  { name := req.name, id := idStr,
    script := req.implementation.map (fun i => i.script),
    cls := req.implementation.map (fun i => i.cls) }

/-- Overwriting a record's script/class, as an update call does remotely. -/
def setImpl (r : ApiDurableObjectNSResponse) (b : DurableObjectNSImpl) :
    ApiDurableObjectNSResponse :=
  { r with script := some b.script, cls := some b.cls }

/-- Effect of one remote call on the directory: `supply` assigns ids to
create calls by counter index. -/
def applyCall (supply : Nat → String) (st : RemoteState) : RemoteCall → RemoteState
  | .create req => ⟨st.dir ++ [mkCreatedRecord req (supply st.ctr)], st.ctr + 1⟩
  | .update nid body =>
    ⟨st.dir.map (fun r => if r.id = nid then setImpl r body else r), st.ctr⟩

/-- Effect of a sequence of remote calls on the directory. -/
def applyCalls (supply : Nat → String) (st : RemoteState) (calls : List RemoteCall) :
    RemoteState :=
  calls.foldl (applyCall supply) st

/-- Containment of one string in another, at the character-list level. -/
def substringOf (s m : String) : Prop :=
  ∃ p q, p ++ s.data ++ q = m.data

/-! Proof-support definitions (abbreviations over the embedded operations,
used only to state and prove properties). -/

/-- Sequential effect of a list of update calls `(target id, body)` on one
record, as `applyCall` performs them in order. -/
def applyUps (ups : List (String × DurableObjectNSImpl)) (r : ApiDurableObjectNSResponse) :
    ApiDurableObjectNSResponse :=
  ups.foldl (fun r p => if r.id = p.1 then setImpl r p.2 else r) r

/-- The records a sequence of create requests appends to the directory,
with ids assigned from `supply` starting at counter `k`. -/
def createdRecs (supply : Nat → String) (k : Nat) :
    List DurableObjectCreateNSRequest → List ApiDurableObjectNSResponse
  | [] => []
  | req :: rest => mkCreatedRecord req (supply k) :: createdRecs supply (k + 1) rest

/-- Whether a remote call concerns the namespace named `n`, judged against a
registry: a create call mentions `n` when its request names `n`; an update
call mentions `n` when it is addressed to the id the registry records for
`n`. -/
def callMentions (reg : Registry) (n : String) : RemoteCall → Bool
  | .create req => req.name == n
  | .update i _ =>
    match reg n with
    | some r => r.id == i
    | none => false

/-- Registry ids are injective across the names declared by the implemented
list: two implemented names carrying records with the same id are the same
name.  (This is the account-level uniqueness of namespace identifiers,
stated decidably over the finitely many declared names.) -/
def regIdInjOnB (reg : Registry) (impls : List DurableObjectNamespaceImpl) : Bool :=
  impls.all (fun a => impls.all (fun b =>
    match reg a.namespace_name, reg b.namespace_name with
    | some ra, some rb => !(ra.id == rb.id) || (a.namespace_name == b.namespace_name)
    | _, _ => true))

/-- The name of a create call, if the call is a create. -/
def createdName : RemoteCall → Option String
  | .create req => some req.name
  | .update _ _ => none

/-- What `hydrate_target_with_ns_ids` does to a single binding in the
successful case: a binding with a declared name and an unset identifier gets
the identifier of the registry record of that name; every other binding is
untouched. -/
def resolveUsed (reg : Registry) (b : UsedBinding) : UsedBinding :=
  match b.namespace_name, b.namespace_id with
  | some n, none => { b with namespace_id := (reg n).map (fun r => r.id) }
  | _, _ => b

/-! Theorems.  First a toolkit of lemmas about the registry built by
`list_namespaces_by_name_to_id` and about the call-application model; the
claim theorems follow. -/

theorem getLast?_cons_or {α : Type} (a : α) (l : List α) :
    (a :: l).getLast? = l.getLast?.or (some a) := by
  cases l with
  | nil => rfl
  | cons b t =>
    rw [List.getLast?_cons_cons]
    cases h : (b :: t).getLast? with
    | some x => simp
    | none => rw [List.getLast?_eq_none_iff] at h; exact absurd h (by simp)

theorem foldl_insert_lookup (d : List ApiDurableObjectNSResponse) (m : Registry) (n : String) :
    (d.foldl (fun m r => insertReg m r.name r) m) n
      = (list_namespaces_by_name_to_id d n).or (m n) := by
  induction d generalizing m with
  | nil => rfl
  | cons r d ih =>
    show (d.foldl _ (insertReg m r.name r)) n = _
    rw [ih]
    have h2 : list_namespaces_by_name_to_id (r :: d) n
        = (list_namespaces_by_name_to_id d n).or (insertReg emptyReg r.name r n) := by
      show (d.foldl _ (insertReg emptyReg r.name r)) n = _
      rw [ih]
    rw [h2]
    cases hd : list_namespaces_by_name_to_id d n with
    | some x => rfl
    | none =>
      simp only [Option.none_or]
      by_cases h : n = r.name <;> simp [insertReg, emptyReg, h]

theorem byName_cons (r : ApiDurableObjectNSResponse) (d : List ApiDurableObjectNSResponse)
    (n : String) :
    list_namespaces_by_name_to_id (r :: d) n
      = (list_namespaces_by_name_to_id d n).or (if n = r.name then some r else none) := by
  show (d.foldl _ (insertReg emptyReg r.name r)) n = _
  rw [foldl_insert_lookup]
  rfl

theorem byName_append (d1 d2 : List ApiDurableObjectNSResponse) (n : String) :
    list_namespaces_by_name_to_id (d1 ++ d2) n
      = (list_namespaces_by_name_to_id d2 n).or (list_namespaces_by_name_to_id d1 n) := by
  show ((d1 ++ d2).foldl _ emptyReg) n = _
  rw [List.foldl_append, foldl_insert_lookup]
  rfl

theorem byName_getLast (d : List ApiDurableObjectNSResponse) (n : String) :
    list_namespaces_by_name_to_id d n = (d.filter (fun r => r.name == n)).getLast? := by
  induction d with
  | nil => rfl
  | cons r d ih =>
    rw [byName_cons, ih]
    by_cases h : r.name = n
    · rw [List.filter_cons_of_pos (by simp [h]), getLast?_cons_or, if_pos h.symm]
    · rw [List.filter_cons_of_neg (by simp [h]), if_neg (fun hn => h hn.symm), Option.or_none]

theorem byName_some (d : List ApiDurableObjectNSResponse) (n : String)
    (r : ApiDurableObjectNSResponse) (h : list_namespaces_by_name_to_id d n = some r) :
    r ∈ d ∧ r.name = n := by
  rw [byName_getLast] at h
  have hne : d.filter (fun r => r.name == n) ≠ [] := by
    intro hnil
    rw [hnil] at h
    exact Option.noConfusion h
  rw [List.getLast?_eq_getLast_of_ne_nil hne] at h
  have hm : r ∈ d.filter (fun r => r.name == n) := by
    have := List.getLast_mem hne
    rwa [Option.some_inj.mp h] at this
  have := List.mem_filter.mp hm
  exact ⟨this.1, by simpa using this.2⟩

theorem byName_eq_none_iff (d : List ApiDurableObjectNSResponse) (n : String) :
    list_namespaces_by_name_to_id d n = none ↔ ∀ r ∈ d, ¬ r.name = n := by
  rw [byName_getLast, List.getLast?_eq_none_iff, List.filter_eq_nil_iff]
  simp

/-- Claim C10: the registry built by the refresh keeps, for every name, the
last record with that name in listing order (later `HashMap::insert`s
overwrite earlier ones). -/
theorem registry_last_record_wins (d : List ApiDurableObjectNSResponse) (n : String) :
    list_namespaces_by_name_to_id d n = (d.filter (fun r => r.name == n)).getLast? :=
  byName_getLast d n

theorem string_data_append : ∀ (a b : String), (a ++ b).data = a.data ++ b.data
  | ⟨_⟩, ⟨_⟩ => rfl

/-- Claim C7 as amended: a success response whose body cannot be parsed is
fatal for the create and list calls (the update call never reads its
response body); a success response that parses but is missing its `result`
payload is fatal for create, while for list it is substituted by the default
empty listing. -/
theorem malformed_response_handling :
    (∀ (body : DurableObjectCreateNSRequest)
        (resp : ApiResponse (Option ApiDurableObjectNSResponse)),
        resp.success = true → resp.parsed = none →
        create_ns body resp = .error .malformed)
    ∧ (∀ (body : DurableObjectCreateNSRequest)
        (resp : ApiResponse (Option ApiDurableObjectNSResponse)),
        resp.success = true → resp.parsed = some none →
        create_ns body resp = .error (.missingResult
          "durable object not returned from create call despite success status"))
    ∧ (∀ (resp : ApiResponse (Option (List ApiDurableObjectNSResponse))),
        resp.success = true → resp.parsed = none →
        list_namespaces resp = .error .malformed)
    ∧ (∀ (resp : ApiResponse (Option (List ApiDurableObjectNSResponse)))
        (rs : Option (List ApiDurableObjectNSResponse)),
        resp.success = true → resp.parsed = some rs →
        list_namespaces resp = .ok (rs.getD [])) := by
  refine ⟨?_, ?_, ?_, ?_⟩
  · intro body resp hs hp
    simp [create_ns, hs, hp]
  · intro body resp hs hp
    simp [create_ns, hs, hp]
  · intro resp hs hp
    simp [list_namespaces, hs, hp]
  · intro resp rs hs hp
    simp [list_namespaces, hs, hp]

/-- Witness for the amended C7 theorem at concrete responses. -/
theorem malformed_response_handling_witness :
    create_ns ⟨"Counter", none⟩ ⟨true, "200 OK", "ok", none⟩ = .error .malformed
    ∧ list_namespaces ⟨true, "200 OK", "ok", none⟩ = .error .malformed :=
  ⟨malformed_response_handling.1 ⟨"Counter", none⟩ ⟨true, "200 OK", "ok", none⟩ rfl rfl,
    malformed_response_handling.2.2.1 ⟨true, "200 OK", "ok", none⟩ rfl rfl⟩

/-- Claim C8: on a non-success status, each of the three remote calls
returns an error whose message contains both the rendered status and the raw
response body. -/
theorem remote_error_contract :
    (∀ (body : DurableObjectCreateNSRequest)
        (resp : ApiResponse (Option ApiDurableObjectNSResponse)),
        resp.success = false →
        ∃ m, create_ns body resp = .error (.remote m)
          ∧ substringOf resp.status m ∧ substringOf resp.text m)
    ∧ (∀ (body : DurableObjectNSImpl) (resp : ApiResponse Unit),
        resp.success = false →
        ∃ m, update_ns body resp = .error (.remote m)
          ∧ substringOf resp.status m ∧ substringOf resp.text m)
    ∧ (∀ (resp : ApiResponse (Option (List ApiDurableObjectNSResponse))),
        resp.success = false →
        ∃ m, list_namespaces resp = .error (.remote m)
          ∧ substringOf resp.status m ∧ substringOf resp.text m) := by
  refine ⟨?_, ?_, ?_⟩
  · intro body resp hs
    refine ⟨bailMsgBody resp.status resp.text (reprCreateReq body), by simp [create_ns, hs], ?_, ?_⟩
    · exact ⟨"Something went wrong! Status: ".data,
        (", Details " ++ resp.text ++ ", body: " ++ reprCreateReq body).data,
        by simp [bailMsgBody, string_data_append, List.append_assoc]⟩
    · exact ⟨("Something went wrong! Status: " ++ resp.status ++ ", Details ").data,
        (", body: " ++ reprCreateReq body).data,
        by simp [bailMsgBody, string_data_append, List.append_assoc]⟩
  · intro body resp hs
    refine ⟨bailMsgBody resp.status resp.text (reprNSImpl body), by simp [update_ns, hs], ?_, ?_⟩
    · exact ⟨"Something went wrong! Status: ".data,
        (", Details " ++ resp.text ++ ", body: " ++ reprNSImpl body).data,
        by simp [bailMsgBody, string_data_append, List.append_assoc]⟩
    · exact ⟨("Something went wrong! Status: " ++ resp.status ++ ", Details ").data,
        (", body: " ++ reprNSImpl body).data,
        by simp [bailMsgBody, string_data_append, List.append_assoc]⟩
  · intro resp hs
    refine ⟨bailMsgList resp.status resp.text, by simp [list_namespaces, hs], ?_, ?_⟩
    · exact ⟨"Something went wrong! Status: ".data, (", Details " ++ resp.text).data,
        by simp [bailMsgList, string_data_append, List.append_assoc]⟩
    · exact ⟨("Something went wrong! Status: " ++ resp.status ++ ", Details ").data, [],
        by simp [bailMsgList, string_data_append, List.append_assoc]⟩

theorem filter_name_unique (impls : List DurableObjectNamespaceImpl)
    (hN : (impls.map (fun a => a.namespace_name)).Nodup)
    (ns : DurableObjectNamespaceImpl) (hmem : ns ∈ impls) :
    impls.filter (fun a => a.namespace_name == ns.namespace_name) = [ns] := by
  induction impls with
  | nil => exact absurd hmem (List.not_mem_nil ns)
  | cons a t ih =>
    rw [List.map_cons, List.nodup_cons] at hN
    rcases List.mem_cons.mp hmem with rfl | hmem'
    · rw [List.filter_cons_of_pos (by simp)]
      have : t.filter (fun a => a.namespace_name == ns.namespace_name) = [] := by
        rw [List.filter_eq_nil_iff]
        intro b hb hbeq
        exact hN.1 (List.mem_map.mpr ⟨b, hb, by simpa using hbeq⟩)
      rw [this]
    · have hne : ¬ a.namespace_name = ns.namespace_name := by
        intro he
        exact hN.1 (he ▸ List.mem_map.mpr ⟨ns, hmem', rfl⟩)
      rw [List.filter_cons_of_neg (by simpa using hne)]
      exact ih hN.2 hmem'

theorem regIdInjOnB_spec (reg : Registry) (impls : List DurableObjectNamespaceImpl)
    (h : regIdInjOnB reg impls = true) :
    ∀ a ∈ impls, ∀ b ∈ impls, ∀ ra rb,
      reg a.namespace_name = some ra → reg b.namespace_name = some rb →
      ra.id = rb.id → a.namespace_name = b.namespace_name := by
  intro a ha b hb ra rb hra hrb hid
  simp only [regIdInjOnB, List.all_eq_true] at h
  have := h a ha b hb
  rw [hra, hrb] at this
  simpa [hid] using this

theorem staleEntry_some (s : String) (reg : Registry) (a : DurableObjectNamespaceImpl)
    (p : String × DurableObjectNamespaceImpl) (h : staleEntry s reg a = some p) :
    p.2 = a ∧ ∃ current, reg a.namespace_name = some current ∧ p.1 = current.id
      ∧ (current.script ≠ some s ∨ current.cls ≠ some a.class_name) := by
  unfold staleEntry at h
  split at h
  · split at h
    · obtain rfl : (_, a) = p := by simpa using h
      next current hr hc =>
        exact ⟨rfl, current, hr, rfl, hc⟩
    · exact absurd h (by simp)
  · exact absurd h (by simp)

theorem staleEntry_of_mismatch (s : String) (reg : Registry)
    (a : DurableObjectNamespaceImpl) (current : ApiDurableObjectNSResponse)
    (hr : reg a.namespace_name = some current)
    (hc : current.script ≠ some s ∨ current.cls ≠ some a.class_name) :
    staleEntry s reg a = some (current.id, a) := by
  unfold staleEntry
  rw [hr]
  exact if_pos hc

theorem staleEntry_of_matched (s : String) (reg : Registry)
    (a : DurableObjectNamespaceImpl) (current : ApiDurableObjectNSResponse)
    (hr : reg a.namespace_name = some current)
    (hs : current.script = some s) (hc : current.cls = some a.class_name) :
    staleEntry s reg a = none := by
  unfold staleEntry
  rw [hr]
  exact if_neg (by push_neg; exact ⟨hs, hc⟩)

theorem staleEntry_snd_sublist (s : String) (reg : Registry)
    (l : List DurableObjectNamespaceImpl) :
    ((l.filterMap (staleEntry s reg)).map (fun p => p.2)).Sublist l := by
  induction l with
  | nil => simp
  | cons a t ih =>
    rw [List.filterMap_cons]
    cases h : staleEntry s reg a with
    | none => exact ih.trans (List.sublist_cons_self a t)
    | some p =>
      rw [List.map_cons]
      have : p.2 = a := (staleEntry_some s reg a p h).1
      rw [this]
      exact ih.cons₂ a

theorem filter_comm' {α : Type} (p q : α → Bool) (l : List α) :
    (l.filter q).filter p = (l.filter p).filter q := by
  rw [List.filter_filter, List.filter_filter]
  exact List.filter_congr (fun a _ => Bool.and_comm _ _)

theorem filterMap_eq_singleton {α β : Type} (l1 l2 : List α) (g : α → Option β) (a : α) (b : β)
    (hg : g a = some b) (hl1 : ∀ x ∈ l1, g x = none) (hl2 : ∀ x ∈ l2, g x = none) :
    (l1 ++ a :: l2).filterMap g = [b] := by
  rw [List.filterMap_append, List.filterMap_eq_nil_iff.mpr hl1, List.filterMap_cons, hg,
    List.filterMap_eq_nil_iff.mpr hl2]
  rfl

theorem nodup_names_split (l1 l2 : List DurableObjectNamespaceImpl)
    (ns : DurableObjectNamespaceImpl)
    (hN : ((l1 ++ ns :: l2).map (fun a => a.namespace_name)).Nodup) :
    ∀ a, (a ∈ l1 ∨ a ∈ l2) → a.namespace_name ≠ ns.namespace_name := by
  rw [List.map_append, List.map_cons] at hN
  obtain ⟨d1, d2, disj⟩ := List.nodup_append.mp hN
  intro a ha he
  rcases ha with h1 | h2
  · exact disj (List.mem_map.mpr ⟨a, h1, rfl⟩) (by rw [he]; exact List.mem_cons_self _ _)
  · rw [List.nodup_cons] at d2
    exact d2.1 (by rw [← he]; exact List.mem_map.mpr ⟨a, h2, rfl⟩)

/-- Claim C5 as amended: binding resolution fails closed for the bindings
that carry a declared name — on success every binding is exactly the
registry-resolved version of its input, so every binding with a declared
name ends with a set identifier; and if any binding has a declared name, an
unset identifier and no registry record, the phase fails with the not-found
error naming a missing namespace.  (A binding with neither a declared name
nor an identifier passes through unresolved, so the claim's final clause
over *every* UsedBinding does not hold; see the counterexample.) -/
theorem hydrate_resolution_spec (reg : Registry) (l : List UsedBinding) :
    (∀ l', hydrate_target_with_ns_ids reg l = .ok l' →
      l' = l.map (resolveUsed reg)
      ∧ ∀ b ∈ l', ∀ n, b.namespace_name = some n → b.namespace_id.isSome)
    ∧ ((∃ b ∈ l, ∃ n, b.namespace_name = some n ∧ b.namespace_id = none ∧ reg n = none) →
      ∃ n', reg n' = none
        ∧ (∃ b ∈ l, b.namespace_name = some n' ∧ b.namespace_id = none)
        ∧ hydrate_target_with_ns_ids reg l = .error (nsNotFoundMsg n')) := by
  induction l with
  | nil =>
    refine ⟨?_, ?_⟩
    · intro l' h
      obtain rfl : ([] : List UsedBinding) = l' := by
        simpa [hydrate_target_with_ns_ids] using h
      simp
    · rintro ⟨b, hb, _⟩
      exact absurd hb (List.not_mem_nil b)
  | cons ns rest ih =>
    obtain ⟨ihok, iherr⟩ := ih
    rcases hnn : ns.namespace_name with _ | name
    · -- no declared name: the binding is skipped
      refine ⟨?_, ?_⟩
      · intro l' h
        rw [hydrate_target_with_ns_ids, hnn] at h
        cases hr : hydrate_target_with_ns_ids reg rest with
        | error e => rw [hr] at h; exact absurd h (by simp)
        | ok rest' =>
          rw [hr] at h
          obtain rfl : ns :: rest' = l' := by simpa using h
          obtain ⟨hmap, hall⟩ := ihok rest' hr
          refine ⟨by simp [hmap, resolveUsed, hnn], ?_⟩
          intro b hb n hbn
          rcases List.mem_cons.mp hb with rfl | hb
          · rw [hnn] at hbn; exact absurd hbn (by simp)
          · exact hall b hb n hbn
      · rintro ⟨b, hb, n, hbn, hbi, hregn⟩
        rcases List.mem_cons.mp hb with rfl | hb
        · rw [hnn] at hbn; exact absurd hbn (by simp)
        · obtain ⟨n', h1, ⟨b', hb', h2⟩, h3⟩ := iherr ⟨b, hb, n, hbn, hbi, hregn⟩
          refine ⟨n', h1, ⟨b', List.mem_cons_of_mem ns hb', h2⟩, ?_⟩
          rw [hydrate_target_with_ns_ids, hnn, h3]
    · rcases hni : ns.namespace_id with _ | i
      · -- declared name, unset identifier: resolved through the registry
        cases hregn : reg name with
        | none =>
          refine ⟨?_, ?_⟩
          · intro l' h
            rw [hydrate_target_with_ns_ids, hnn] at h
            simp [hni, hregn] at h
          · intro _
            exact ⟨name, hregn, ⟨ns, List.mem_cons_self ns rest, hnn, hni⟩,
              by rw [hydrate_target_with_ns_ids, hnn]; simp [hni, hregn]⟩
        | some r =>
          refine ⟨?_, ?_⟩
          · intro l' h
            rw [hydrate_target_with_ns_ids, hnn] at h
            simp only [hni, Option.isNone_none, if_pos, hregn, Option.map_some'] at h
            cases hr : hydrate_target_with_ns_ids reg rest with
            | error e => rw [hr] at h; exact absurd h (by simp)
            | ok rest' =>
              rw [hr] at h
              obtain rfl : (⟨some name, some r.id⟩ : UsedBinding) :: rest' = l' := by
                simpa using h
              obtain ⟨hmap, hall⟩ := ihok rest' hr
              constructor
              · have : resolveUsed reg ns = (⟨some name, some r.id⟩ : UsedBinding) := by
                  simp [resolveUsed, hnn, hni, hregn]
                simp [hmap, this]
              · intro b hb n hbn
                rcases List.mem_cons.mp hb with rfl | hb
                · simp
                · exact hall b hb n hbn
          · rintro ⟨b, hb, n, hbn, hbi, hregn'⟩
            rcases List.mem_cons.mp hb with rfl | hb
            · rw [hnn] at hbn
              obtain rfl : name = n := by simpa using hbn
              rw [hregn] at hregn'
              exact absurd hregn' (by simp)
            · obtain ⟨n', h1, ⟨b', hb', h2⟩, h3⟩ := iherr ⟨b, hb, n, hbn, hbi, hregn'⟩
              refine ⟨n', h1, ⟨b', List.mem_cons_of_mem ns hb', h2⟩, ?_⟩
              rw [hydrate_target_with_ns_ids, hnn]
              simp only [hni, Option.isNone_none, if_pos, hregn, Option.map_some', h3]
      · -- identifier already set: the binding is skipped
        refine ⟨?_, ?_⟩
        · intro l' h
          rw [hydrate_target_with_ns_ids, hnn] at h
          simp only [hni, Option.isNone_some, Bool.false_eq_true, if_neg] at h
          cases hr : hydrate_target_with_ns_ids reg rest with
          | error e => rw [hr] at h; exact absurd h (by simp)
          | ok rest' =>
            rw [hr] at h
            obtain rfl : ns :: rest' = l' := by simpa using h
            obtain ⟨hmap, hall⟩ := ihok rest' hr
            refine ⟨by simp [hmap, resolveUsed, hnn, hni], ?_⟩
            intro b hb n hbn
            rcases List.mem_cons.mp hb with rfl | hb
            · rw [hni]; simp
            · exact hall b hb n hbn
        · rintro ⟨b, hb, n, hbn, hbi, hregn'⟩
          rcases List.mem_cons.mp hb with rfl | hb
          · rw [hni] at hbi; exact absurd hbi (by simp)
          · obtain ⟨n', h1, ⟨b', hb', h2⟩, h3⟩ := iherr ⟨b, hb, n, hbn, hbi, hregn'⟩
            refine ⟨n', h1, ⟨b', List.mem_cons_of_mem ns hb', h2⟩, ?_⟩
            rw [hydrate_target_with_ns_ids, hnn]
            simp [hni, h3]

/-- Witness for the amended C5 theorem at a concrete registry and binding
list (the binding named "A" resolves to the record's id). -/
theorem hydrate_resolution_spec_witness :
    ([⟨some "A", some "id1"⟩] : List UsedBinding)
      = [(⟨some "A", none⟩ : UsedBinding)].map
          (resolveUsed (insertReg emptyReg "A" ⟨"A", "id1", none, none⟩))
    ∧ ∀ b ∈ ([⟨some "A", some "id1"⟩] : List UsedBinding),
        ∀ n, b.namespace_name = some n → b.namespace_id.isSome :=
  (hydrate_resolution_spec (insertReg emptyReg "A" ⟨"A", "id1", none, none⟩)
      [⟨some "A", none⟩]).1 [⟨some "A", some "id1"⟩] rfl

/-- Claim C4: provided the implemented names are distinct and registry ids
are account-unique (the spec's key invariant in section 3), `deploy`
classifies every implemented namespace into exactly one of three buckets
against the registry entry of the same name: absent — exactly one create
call carrying the script name and the declared class; present but
mismatched — exactly one update call addressed to the record's id carrying
the declared values; present and matched — no remote call for that name. -/
theorem deploy_buckets (script_name : String) (dos : DurableObjects) (reg : Registry)
    (hN : ((dos.implements.getD []).map (fun a => a.namespace_name)).Nodup)
    (hI : regIdInjOnB reg (dos.implements.getD []) = true) :
    ∀ ns ∈ dos.implements.getD [],
      (reg ns.namespace_name = none →
        ((deploy script_name dos reg).2).filter (callMentions reg ns.namespace_name)
          = [RemoteCall.create ⟨ns.namespace_name, some ⟨script_name, ns.class_name⟩⟩])
      ∧ (∀ current, reg ns.namespace_name = some current →
          (current.script ≠ some script_name ∨ current.cls ≠ some ns.class_name) →
          ((deploy script_name dos reg).2).filter (callMentions reg ns.namespace_name)
            = [RemoteCall.update current.id ⟨script_name, ns.class_name⟩])
      ∧ (∀ current, reg ns.namespace_name = some current →
          current.script = some script_name → current.cls = some ns.class_name →
          ((deploy script_name dos reg).2).filter (callMentions reg ns.namespace_name) = []) := by
  intro ns hns
  have hinj := regIdInjOnB_spec reg (dos.implements.getD []) hI
  have hcalls : (deploy script_name dos reg).2
      = ((dos.implements.getD []).filter (isNewNS reg)).map (fun a =>
          RemoteCall.create ⟨a.namespace_name, some ⟨script_name, a.class_name⟩⟩)
        ++ ((dos.implements.getD []).filterMap (staleEntry script_name reg)).map
            (fun p => RemoteCall.update p.1 ⟨script_name, p.2.class_name⟩) := rfl
  have hcre : (((dos.implements.getD []).filter (isNewNS reg)).map (fun a =>
        RemoteCall.create ⟨a.namespace_name, some ⟨script_name, a.class_name⟩⟩)).filter
          (callMentions reg ns.namespace_name)
      = ([ns].filter (isNewNS reg)).map (fun a =>
        RemoteCall.create ⟨a.namespace_name, some ⟨script_name, a.class_name⟩⟩) := by
    rw [List.filter_map, filter_comm',
      List.filter_congr
        (p := callMentions reg ns.namespace_name ∘ fun a =>
          RemoteCall.create ⟨a.namespace_name, some ⟨script_name, a.class_name⟩⟩)
        (q := fun a => a.namespace_name == ns.namespace_name)
        (l := dos.implements.getD [])
        (fun a _ => rfl),
      filter_name_unique _ hN ns hns]
  refine ⟨?_, ?_, ?_⟩
  · -- absent: exactly the one create call
    intro habs
    have hupd : (((dos.implements.getD []).filterMap (staleEntry script_name reg)).map
        (fun p => RemoteCall.update p.1 ⟨script_name, p.2.class_name⟩)).filter
          (callMentions reg ns.namespace_name) = [] := by
      rw [List.filter_eq_nil_iff]
      intro c hc
      obtain ⟨p, _, rfl⟩ := List.mem_map.mp hc
      simp [callMentions, habs]
    rw [hcalls, List.filter_append, hcre, hupd]
    have : isNewNS reg ns = true := by simp [isNewNS, habs]
    simp [this]
  · -- present but mismatched: exactly the one update call
    intro current hcur hmis
    have hupd : (((dos.implements.getD []).filterMap (staleEntry script_name reg)).map
        (fun p => RemoteCall.update p.1 ⟨script_name, p.2.class_name⟩)).filter
          (callMentions reg ns.namespace_name)
        = [RemoteCall.update current.id ⟨script_name, ns.class_name⟩] := by
      rw [List.filter_map,
        List.filter_congr (q := fun p : String × DurableObjectNamespaceImpl =>
          current.id == p.1) (fun p _ => by simp [callMentions, Function.comp, hcur]),
        List.filter_filterMap]
      obtain ⟨l1, l2, hsplit⟩ := List.append_of_mem hns
      have hne := nodup_names_split l1 l2 ns (by rw [← hsplit]; exact hN)
      have hside : ∀ x, x ∈ l1 ∨ x ∈ l2 →
          (staleEntry script_name reg x).filter (fun p => current.id == p.1) = none := by
        intro x hx
        cases hsx : staleEntry script_name reg x with
        | none => rfl
        | some p =>
          obtain ⟨hp2, ra, hra, hp1, _⟩ := staleEntry_some _ _ _ _ hsx
          by_cases hb : current.id = p.1
          · exfalso
            have hxmem : x ∈ dos.implements.getD [] := by
              rw [hsplit]
              rcases hx with h1 | h2
              · exact List.mem_append_left _ h1
              · exact List.mem_append_right _ (List.mem_cons_of_mem _ h2)
            have : x.namespace_name = ns.namespace_name :=
              hinj x hxmem ns hns ra current hra hcur (by rw [← hp1, ← hb])
            exact hne x hx this
          · simp [Option.filter, hb]
      rw [hsplit, filterMap_eq_singleton l1 l2 _ ns (current.id, ns)
        (by rw [staleEntry_of_mismatch _ _ _ _ hcur hmis]; simp [Option.filter])
        (fun x hx => hside x (Or.inl hx)) (fun x hx => hside x (Or.inr hx))]
      rfl
    rw [hcalls, List.filter_append, hcre, hupd]
    have : isNewNS reg ns = false := by simp [isNewNS, hcur]
    simp [this]
  · -- present and matched: no call mentioning the name
    intro current hcur hsc hcc
    have hupd : (((dos.implements.getD []).filterMap (staleEntry script_name reg)).map
        (fun p => RemoteCall.update p.1 ⟨script_name, p.2.class_name⟩)).filter
          (callMentions reg ns.namespace_name) = [] := by
      rw [List.filter_map,
        List.filter_congr (q := fun p : String × DurableObjectNamespaceImpl =>
          current.id == p.1) (fun p _ => by simp [callMentions, Function.comp, hcur]),
        List.filter_filterMap]
      have hnil : (dos.implements.getD []).filterMap (fun a =>
          (staleEntry script_name reg a).filter (fun p => current.id == p.1)) = [] := by
        rw [List.filterMap_eq_nil_iff]
        intro a ha
        cases hsa : staleEntry script_name reg a with
        | none => rfl
        | some p =>
          obtain ⟨hp2, ra, hra, hp1, hmis'⟩ := staleEntry_some _ _ _ _ hsa
          by_cases hb : current.id = p.1
          · exfalso
            have hname : a.namespace_name = ns.namespace_name :=
              hinj a ha ns hns ra current hra hcur (by rw [← hp1, ← hb])
            have haeq : a = ns := List.inj_on_of_nodup_map hN ha hns hname
            rw [haeq, staleEntry_of_matched _ _ _ _ hcur hsc hcc] at hsa
            exact Option.noConfusion hsa
          · simp [Option.filter, hb]
      rw [hnil]
      rfl
    rw [hcalls, List.filter_append, hcre, hupd]
    have : isNewNS reg ns = false := by simp [isNewNS, hcur]
    simp [this]

/-- Witness for the C4 theorem: a registry whose record for "A" carries an
outdated script, so the mismatched bucket fires with one update call. -/
theorem deploy_buckets_witness :
    ((deploy "s" ⟨some [⟨"A", "X"⟩], none⟩
        (insertReg emptyReg "A" ⟨"A", "id1", some "old", some "X"⟩)).2).filter
        (callMentions (insertReg emptyReg "A" ⟨"A", "id1", some "old", some "X"⟩) "A")
      = [RemoteCall.update "id1" ⟨"s", "X"⟩] :=
  (deploy_buckets "s" ⟨some [⟨"A", "X"⟩], none⟩
      (insertReg emptyReg "A" ⟨"A", "id1", some "old", some "X"⟩)
      (by decide) (by decide) ⟨"A", "X"⟩ (by decide)).2.1
    ⟨"A", "id1", some "old", some "X"⟩ rfl (Or.inl (by decide))

/-- Claim C9: provided the implemented names are distinct (the spec's key
invariant), the name list returned by `deploy` splits as created names
followed by updated names; it has no duplicates, both groups are
subsequences of the implemented declaration order, the first group is
exactly the names of the create calls issued, and the second group is
exactly the names classified as present-but-mismatched. -/
theorem deploy_touched_names (script_name : String) (dos : DurableObjects) (reg : Registry)
    (hN : ((dos.implements.getD []).map (fun a => a.namespace_name)).Nodup) :
    ∃ c u, (deploy script_name dos reg).1 = c ++ u
      ∧ ((deploy script_name dos reg).1).Nodup
      ∧ c.Sublist ((dos.implements.getD []).map (fun a => a.namespace_name))
      ∧ u.Sublist ((dos.implements.getD []).map (fun a => a.namespace_name))
      ∧ c = ((deploy script_name dos reg).2).filterMap createdName
      ∧ (∀ n, n ∈ u ↔ ∃ ns ∈ dos.implements.getD [], ns.namespace_name = n
          ∧ ∃ current, reg n = some current
            ∧ (current.script ≠ some script_name ∨ current.cls ≠ some ns.class_name)) := by
  have hcs : (((dos.implements.getD []).filter (isNewNS reg)).map
      (fun a => a.namespace_name)).Sublist
      ((dos.implements.getD []).map (fun a => a.namespace_name)) :=
    List.Sublist.map _ (List.filter_sublist _)
  have hus : (((dos.implements.getD []).filterMap (staleEntry script_name reg)).map
      (fun p => p.2.namespace_name)).Sublist
      ((dos.implements.getD []).map (fun a => a.namespace_name)) := by
    rw [show (fun p : String × DurableObjectNamespaceImpl => p.2.namespace_name)
        = (fun a : DurableObjectNamespaceImpl => a.namespace_name) ∘ (fun p => p.2) from rfl,
      ← List.map_map]
    exact List.Sublist.map _ (staleEntry_snd_sublist script_name reg _)
  refine ⟨((dos.implements.getD []).filter (isNewNS reg)).map (fun a => a.namespace_name),
    ((dos.implements.getD []).filterMap (staleEntry script_name reg)).map
      (fun p => p.2.namespace_name), by rfl, ?_, hcs, hus, ?_, ?_⟩
  · -- the returned list has no duplicates
    show (((dos.implements.getD []).filter (isNewNS reg)).map (fun a => a.namespace_name)
      ++ ((dos.implements.getD []).filterMap (staleEntry script_name reg)).map
          (fun p => p.2.namespace_name)).Nodup
    refine List.Nodup.append (hN.sublist hcs) (hN.sublist hus) ?_
    intro n hcmem humem
    obtain ⟨a, ha, rfl⟩ := List.mem_map.mp hcmem
    obtain ⟨p, hp, hpn⟩ := List.mem_map.mp humem
    obtain ⟨x, _, hsx⟩ := List.mem_filterMap.mp hp
    obtain ⟨hp2, ra, hra, _, _⟩ := staleEntry_some _ _ _ _ hsx
    have hnone : reg a.namespace_name = none := by
      have hnew : isNewNS reg a = true := (List.mem_filter.mp ha).2
      simpa [isNewNS, Option.not_isSome_iff_eq_none] using hnew
    rw [← hp2, hpn] at hra
    rw [hnone] at hra
    exact Option.noConfusion hra
  · -- the created group is exactly the names of the create calls
    have hcalls : (deploy script_name dos reg).2
        = ((dos.implements.getD []).filter (isNewNS reg)).map (fun a =>
            RemoteCall.create ⟨a.namespace_name, some ⟨script_name, a.class_name⟩⟩)
          ++ ((dos.implements.getD []).filterMap (staleEntry script_name reg)).map
              (fun p => RemoteCall.update p.1 ⟨script_name, p.2.class_name⟩) := rfl
    rw [hcalls, List.filterMap_append, List.filterMap_map, List.filterMap_map]
    have h1 : ((dos.implements.getD []).filter (isNewNS reg)).filterMap
        (createdName ∘ fun a =>
          RemoteCall.create ⟨a.namespace_name, some ⟨script_name, a.class_name⟩⟩)
        = ((dos.implements.getD []).filter (isNewNS reg)).map (fun a => a.namespace_name) := by
      rw [show (createdName ∘ fun a : DurableObjectNamespaceImpl =>
          RemoteCall.create ⟨a.namespace_name, some ⟨script_name, a.class_name⟩⟩)
          = (some ∘ fun a : DurableObjectNamespaceImpl => a.namespace_name) from rfl,
        List.filterMap_eq_map]
    have h2 : ((dos.implements.getD []).filterMap (staleEntry script_name reg)).filterMap
        (createdName ∘ fun p : String × DurableObjectNamespaceImpl =>
          RemoteCall.update p.1 ⟨script_name, p.2.class_name⟩) = [] :=
      List.filterMap_eq_nil_iff.mpr (fun p _ => rfl)
    rw [h1, h2, List.append_nil]
  · -- the updated group is exactly the present-but-mismatched names
    intro n
    constructor
    · intro humem
      obtain ⟨p, hp, hpn⟩ := List.mem_map.mp humem
      obtain ⟨x, hx, hsx⟩ := List.mem_filterMap.mp hp
      obtain ⟨hp2, ra, hra, _, hmis⟩ := staleEntry_some _ _ _ _ hsx
      refine ⟨x, hx, by rw [← hp2, hpn], ra, ?_, ?_⟩
      · rw [← hp2, hpn] at hra
        exact hra
      · exact hmis
    · rintro ⟨ns', hns', hname, current, hcur, hmis⟩
      have hse : staleEntry script_name reg ns' = some (current.id, ns') :=
        staleEntry_of_mismatch _ _ _ _ (by rw [hname]; exact hcur) hmis
      exact List.mem_map.mpr ⟨(current.id, ns'),
        List.mem_filterMap.mpr ⟨ns', hns', hse⟩, hname⟩

/-- Witness for the C9 theorem at a concrete deployment unit. -/
theorem deploy_touched_names_witness :
    ∃ c u, (deploy "s" ⟨some [⟨"A", "X"⟩], none⟩ emptyReg).1 = c ++ u
      ∧ ((deploy "s" ⟨some [⟨"A", "X"⟩], none⟩ emptyReg).1).Nodup
      ∧ c.Sublist (((⟨some [⟨"A", "X"⟩], none⟩ : DurableObjects).implements.getD []).map
          (fun a => a.namespace_name))
      ∧ u.Sublist (((⟨some [⟨"A", "X"⟩], none⟩ : DurableObjects).implements.getD []).map
          (fun a => a.namespace_name))
      ∧ c = ((deploy "s" ⟨some [⟨"A", "X"⟩], none⟩ emptyReg).2).filterMap createdName
      ∧ (∀ n, n ∈ u ↔ ∃ ns ∈ (⟨some [⟨"A", "X"⟩], none⟩ : DurableObjects).implements.getD [],
          ns.namespace_name = n ∧ ∃ current, emptyReg n = some current
            ∧ (current.script ≠ some "s" ∨ current.cls ≠ some ns.class_name)) :=
  deploy_touched_names "s" ⟨some [⟨"A", "X"⟩], none⟩ emptyReg (by decide)

theorem applyCalls_append (supply : Nat → String) (st : RemoteState)
    (c1 c2 : List RemoteCall) :
    applyCalls supply st (c1 ++ c2) = applyCalls supply (applyCalls supply st c1) c2 :=
  List.foldl_append _ _ _ _

theorem applyCalls_creates (supply : Nat → String) (reqs : List DurableObjectCreateNSRequest) :
    ∀ (d : List ApiDurableObjectNSResponse) (k : Nat),
    applyCalls supply ⟨d, k⟩ (reqs.map RemoteCall.create)
      = ⟨d ++ createdRecs supply k reqs, k + reqs.length⟩ := by
  induction reqs with
  | nil => intro d k; simp [applyCalls, createdRecs]
  | cons req t ih =>
    intro d k
    show applyCalls supply (applyCall supply ⟨d, k⟩ (RemoteCall.create req))
      (t.map RemoteCall.create) = _
    rw [show applyCall supply ⟨d, k⟩ (RemoteCall.create req)
        = ⟨d ++ [mkCreatedRecord req (supply k)], k + 1⟩ from rfl, ih]
    simp only [RemoteState.mk.injEq]
    refine ⟨by rw [createdRecs]; simp, by simp; omega⟩

theorem applyCalls_updates (supply : Nat → String)
    (upsB : List (String × DurableObjectNSImpl)) :
    ∀ (d : List ApiDurableObjectNSResponse) (k : Nat),
    applyCalls supply ⟨d, k⟩ (upsB.map (fun q => RemoteCall.update q.1 q.2))
      = ⟨d.map (applyUps upsB), k⟩ := by
  induction upsB with
  | nil =>
    intro d k
    show (⟨d, k⟩ : RemoteState) = _
    rw [show d.map (applyUps []) = d.map (fun r => r) from rfl, List.map_id']
  | cons q t ih =>
    intro d k
    show applyCalls supply (applyCall supply ⟨d, k⟩ (RemoteCall.update q.1 q.2))
      (t.map (fun q => RemoteCall.update q.1 q.2)) = _
    rw [show applyCall supply ⟨d, k⟩ (RemoteCall.update q.1 q.2)
        = ⟨d.map (fun r => if r.id = q.1 then setImpl r q.2 else r), k⟩ from rfl, ih,
      List.map_map]
    rfl

theorem applyUps_no_match (r : ApiDurableObjectNSResponse) :
    ∀ (upsB : List (String × DurableObjectNSImpl)),
    (∀ p ∈ upsB, p.1 ≠ r.id) → applyUps upsB r = r := by
  intro upsB
  induction upsB with
  | nil => intro _; rfl
  | cons q t ih =>
    intro h
    show applyUps t (if r.id = q.1 then setImpl r q.2 else r) = r
    rw [if_neg (fun he => h q (List.mem_cons_self q t) he.symm)]
    exact ih (fun p hp => h p (List.mem_cons_of_mem q hp))

theorem applyUps_preserves (upsB : List (String × DurableObjectNSImpl)) :
    ∀ r, (applyUps upsB r).name = r.name ∧ (applyUps upsB r).id = r.id := by
  induction upsB with
  | nil => intro r; exact ⟨rfl, rfl⟩
  | cons q t ih =>
    intro r
    show (applyUps t (if r.id = q.1 then setImpl r q.2 else r)).name = r.name
      ∧ (applyUps t (if r.id = q.1 then setImpl r q.2 else r)).id = r.id
    by_cases hc : r.id = q.1
    · rw [if_pos hc]
      exact ih (setImpl r q.2)
    · rw [if_neg hc]
      exact ih r

theorem applyUps_absorb (r : ApiDurableObjectNSResponse) (b : DurableObjectNSImpl) :
    ∀ (upsB : List (String × DurableObjectNSImpl)),
    (∀ p ∈ upsB, p.1 = r.id → p.2 = b) → applyUps upsB (setImpl r b) = setImpl r b := by
  intro upsB
  induction upsB with
  | nil => intro _; rfl
  | cons q t ih =>
    intro h
    show applyUps t
      (if (setImpl r b).id = q.1 then setImpl (setImpl r b) q.2 else setImpl r b) = _
    by_cases hc : r.id = q.1
    · rw [if_pos (show (setImpl r b).id = q.1 from hc),
        h q (List.mem_cons_self q t) hc.symm,
        show setImpl (setImpl r b) b = setImpl r b from rfl]
      exact ih (fun p hp he => h p (List.mem_cons_of_mem q hp) he)
    · rw [if_neg (show ¬ (setImpl r b).id = q.1 from hc)]
      exact ih (fun p hp he => h p (List.mem_cons_of_mem q hp) he)

theorem applyUps_match (r : ApiDurableObjectNSResponse) (b : DurableObjectNSImpl) :
    ∀ (upsB : List (String × DurableObjectNSImpl)),
    (∀ p ∈ upsB, p.1 = r.id → p.2 = b) → (∃ p ∈ upsB, p.1 = r.id) →
    applyUps upsB r = setImpl r b := by
  intro upsB
  induction upsB with
  | nil =>
    rintro _ ⟨p, hp, _⟩
    exact absurd hp (List.not_mem_nil p)
  | cons q t ih =>
    intro h1 h2
    show applyUps t (if r.id = q.1 then setImpl r q.2 else r) = _
    by_cases hc : r.id = q.1
    · rw [if_pos hc, h1 q (List.mem_cons_self q t) hc.symm]
      exact applyUps_absorb r b t (fun p hp he => h1 p (List.mem_cons_of_mem q hp) he)
    · rw [if_neg hc]
      refine ih (fun p hp he => h1 p (List.mem_cons_of_mem q hp) he) ?_
      obtain ⟨p, hp, he⟩ := h2
      rcases List.mem_cons.mp hp with rfl | hp'
      · exact absurd he.symm hc
      · exact ⟨p, hp', he⟩

theorem createdRecs_mem_of (supply : Nat → String) (reqs : List DurableObjectCreateNSRequest) :
    ∀ (k : Nat) r, r ∈ createdRecs supply k reqs →
      ∃ j req, req ∈ reqs ∧ r = mkCreatedRecord req (supply j) := by
  induction reqs with
  | nil => intro k r h; simp [createdRecs] at h
  | cons req t ih =>
    intro k r h
    rw [createdRecs] at h
    rcases List.mem_cons.mp h with rfl | h'
    · exact ⟨k, req, List.mem_cons_self req t, rfl⟩
    · obtain ⟨j, req', hm, he⟩ := ih (k + 1) r h'
      exact ⟨j, req', List.mem_cons_of_mem req hm, he⟩

theorem mem_createdRecs_of (supply : Nat → String) (reqs : List DurableObjectCreateNSRequest) :
    ∀ (k : Nat) req, req ∈ reqs →
      ∃ j, mkCreatedRecord req (supply j) ∈ createdRecs supply k reqs := by
  induction reqs with
  | nil => intro k req h; exact absurd h (List.not_mem_nil req)
  | cons r0 t ih =>
    intro k req h
    rcases List.mem_cons.mp h with rfl | h'
    · exact ⟨k, by rw [createdRecs]; exact List.mem_cons_self _ _⟩
    · obtain ⟨j, hm⟩ := ih (k + 1) req h'
      exact ⟨j, by rw [createdRecs]; exact List.mem_cons_of_mem _ hm⟩

theorem byName_map_pres (f : ApiDurableObjectNSResponse → ApiDurableObjectNSResponse)
    (hf : ∀ r, (f r).name = r.name) (d : List ApiDurableObjectNSResponse) (n : String) :
    list_namespaces_by_name_to_id (d.map f) n
      = (list_namespaces_by_name_to_id d n).map f := by
  induction d with
  | nil => rfl
  | cons r t ih =>
    rw [List.map_cons, byName_cons, byName_cons, ih, hf r]
    cases ht : list_namespaces_by_name_to_id t n with
    | some x => rfl
    | none => by_cases h : n = r.name <;> simp [h]

theorem dir1_lookup (script_name : String) (impls : List DurableObjectNamespaceImpl)
    (dir0 : List ApiDurableObjectNSResponse) (supply : Nat → String)
    (hN : (impls.map (fun a => a.namespace_name)).Nodup)
    (hDi : (dir0.map (fun r => r.id)).Nodup)
    (hF : ∀ k, supply k ∉ dir0.map (fun r => r.id))
    (ns : DurableObjectNamespaceImpl) (hns : ns ∈ impls) :
    ∃ rec, list_namespaces_by_name_to_id
        ((applyCalls supply ⟨dir0, 0⟩
          ((impls.filter (isNewNS (list_namespaces_by_name_to_id dir0))).map (fun a =>
            RemoteCall.create ⟨a.namespace_name, some ⟨script_name, a.class_name⟩⟩)
          ++ (impls.filterMap (staleEntry script_name (list_namespaces_by_name_to_id dir0))).map
              (fun p => RemoteCall.update p.1 ⟨script_name, p.2.class_name⟩))).dir)
        ns.namespace_name = some rec
      ∧ rec.script = some script_name ∧ rec.cls = some ns.class_name := by
  set reg0 := list_namespaces_by_name_to_id dir0 with hreg0
  set reqs := (impls.filter (isNewNS reg0)).map (fun a =>
    (⟨a.namespace_name, some ⟨script_name, a.class_name⟩⟩ : DurableObjectCreateNSRequest))
    with hreqs
  set ups0 := impls.filterMap (staleEntry script_name reg0) with hups0
  set upsB := ups0.map (fun p =>
    (p.1, (⟨script_name, p.2.class_name⟩ : DurableObjectNSImpl))) with hupsB
  have hcre : (impls.filter (isNewNS reg0)).map (fun a =>
      RemoteCall.create ⟨a.namespace_name, some ⟨script_name, a.class_name⟩⟩)
      = reqs.map RemoteCall.create := by
    rw [hreqs, List.map_map]
    rfl
  have hupd : (impls.filterMap (staleEntry script_name reg0)).map
      (fun p => RemoteCall.update p.1 ⟨script_name, p.2.class_name⟩)
      = upsB.map (fun q => RemoteCall.update q.1 q.2) := by
    rw [hupsB, hups0, List.map_map]
    rfl
  have hdir : (applyCalls supply ⟨dir0, 0⟩
      ((impls.filter (isNewNS reg0)).map (fun a =>
        RemoteCall.create ⟨a.namespace_name, some ⟨script_name, a.class_name⟩⟩)
      ++ (impls.filterMap (staleEntry script_name reg0)).map
          (fun p => RemoteCall.update p.1 ⟨script_name, p.2.class_name⟩))).dir
      = dir0.map (applyUps upsB) ++ createdRecs supply 0 reqs := by
    rw [hcre, hupd, applyCalls_append, applyCalls_creates, applyCalls_updates]
    show (dir0 ++ createdRecs supply 0 reqs).map (applyUps upsB) = _
    rw [List.map_append]
    congr 1
    refine (List.map_congr_left ?_).trans (List.map_id' _)
    intro c hc
    obtain ⟨j, req, hreq, rfl⟩ := createdRecs_mem_of supply reqs 0 c hc
    refine applyUps_no_match _ upsB ?_
    intro p hp
    rw [hupsB] at hp
    obtain ⟨q, hq, rfl⟩ := List.mem_map.mp hp
    rw [hups0] at hq
    obtain ⟨x, hx, hsx⟩ := List.mem_filterMap.mp hq
    obtain ⟨hq2, ra, hra, hq1, _⟩ := staleEntry_some _ _ _ _ hsx
    rw [hreg0] at hra
    have hmem : ra ∈ dir0 := (byName_some dir0 x.namespace_name ra hra).1
    have hin : q.1 ∈ dir0.map (fun r => r.id) := by
      rw [hq1]
      exact List.mem_map.mpr ⟨ra, hmem, rfl⟩
    intro he
    have he' : q.1 = supply j := he
    rw [he'] at hin
    exact hF j hin
  rw [hdir, byName_append]
  cases hreg : reg0 ns.namespace_name with
  | none =>
    have hd0 : list_namespaces_by_name_to_id (dir0.map (applyUps upsB)) ns.namespace_name
        = none := by
      rw [byName_map_pres (applyUps upsB) (fun r => (applyUps_preserves upsB r).1) dir0,
        ← hreg0, hreg]
      rfl
    have hcmem : ns ∈ impls.filter (isNewNS reg0) :=
      List.mem_filter.mpr ⟨hns, by simp [isNewNS, hreg]⟩
    have hreqmem : (⟨ns.namespace_name, some ⟨script_name, ns.class_name⟩⟩ :
        DurableObjectCreateNSRequest) ∈ reqs := by
      rw [hreqs]
      exact List.mem_map.mpr ⟨ns, hcmem, rfl⟩
    obtain ⟨j, hjmem⟩ := mem_createdRecs_of supply reqs 0 _ hreqmem
    cases hcn : list_namespaces_by_name_to_id (createdRecs supply 0 reqs)
        ns.namespace_name with
    | none =>
      exact absurd rfl ((byName_eq_none_iff _ _).mp hcn _ hjmem)
    | some rec =>
      obtain ⟨hrecmem, hrecname⟩ := byName_some _ _ _ hcn
      obtain ⟨j', req', hreq', rfl⟩ := createdRecs_mem_of supply reqs 0 rec hrecmem
      rw [hreqs] at hreq'
      obtain ⟨a, ha, rfl⟩ := List.mem_map.mp hreq'
      have hax : a = ns :=
        List.inj_on_of_nodup_map hN (List.mem_of_mem_filter ha) hns hrecname
      subst hax
      exact ⟨_, Option.or_some, rfl, rfl⟩
  | some current =>
    have hcurmem := byName_some dir0 ns.namespace_name current (by rw [← hreg0]; exact hreg)
    have hcn : list_namespaces_by_name_to_id (createdRecs supply 0 reqs)
        ns.namespace_name = none := by
      rw [byName_eq_none_iff]
      intro r' hr' hname
      obtain ⟨j, req, hreq, rfl⟩ := createdRecs_mem_of supply reqs 0 r' hr'
      rw [hreqs] at hreq
      obtain ⟨a, ha, rfl⟩ := List.mem_map.mp hreq
      have hax : a = ns := List.inj_on_of_nodup_map hN (List.mem_of_mem_filter ha) hns hname
      rw [hax] at ha
      have hnew : isNewNS reg0 ns = true := (List.mem_filter.mp ha).2
      rw [isNewNS, hreg] at hnew
      simp at hnew
    rw [hcn, Option.none_or,
      byName_map_pres (applyUps upsB) (fun r => (applyUps_preserves upsB r).1) dir0,
      ← hreg0, hreg, Option.map_some']
    have hana : ∀ p ∈ upsB, p.1 = current.id →
        (p = (current.id, (⟨script_name, ns.class_name⟩ : DurableObjectNSImpl))
          ∧ staleEntry script_name reg0 ns ≠ none) := by
      intro p hp hpid
      rw [hupsB] at hp
      obtain ⟨q, hq, rfl⟩ := List.mem_map.mp hp
      rw [hups0] at hq
      obtain ⟨x, hx, hsx⟩ := List.mem_filterMap.mp hq
      obtain ⟨hq2, ra, hra, hq1, _⟩ := staleEntry_some _ _ _ _ hsx
      have hra0 := hra
      rw [hreg0] at hra0
      obtain ⟨hramem, hraname⟩ := byName_some _ _ _ hra0
      have hraeq : ra = current := by
        refine List.inj_on_of_nodup_map hDi hramem hcurmem.1 ?_
        rw [← hq1]
        exact hpid
      have hxname : x.namespace_name = ns.namespace_name := by
        rw [← hraname, hraeq, hcurmem.2]
      have hxx : x = ns := List.inj_on_of_nodup_map hN hx hns hxname
      constructor
      · simp only [Prod.mk.injEq]
        refine ⟨hpid, ?_⟩
        rw [hq2, hxx]
      · rw [← hxx, hsx]
        simp
    by_cases hmis : current.script ≠ some script_name ∨ current.cls ≠ some ns.class_name
    · have h2 : ∃ p ∈ upsB, p.1 = current.id := by
        refine ⟨(current.id, ⟨script_name, ns.class_name⟩), ?_, rfl⟩
        rw [hupsB]
        refine List.mem_map.mpr ⟨(current.id, ns), ?_, rfl⟩
        rw [hups0]
        exact List.mem_filterMap.mpr ⟨ns, hns,
          staleEntry_of_mismatch _ _ _ _ hreg hmis⟩
      have happ := applyUps_match current ⟨script_name, ns.class_name⟩ upsB
        (fun p hp he => by rw [(hana p hp he).1]) h2
      refine ⟨setImpl current ⟨script_name, ns.class_name⟩, ?_, rfl, rfl⟩
      rw [happ]
    · push_neg at hmis
      have happ := applyUps_no_match current upsB (fun p hp he =>
        (hana p hp he).2 (staleEntry_of_matched script_name reg0 ns current
          hreg hmis.1 hmis.2))
      refine ⟨current, ?_, hmis.1, hmis.2⟩
      rw [happ]

/-- Outcome of `deploy` when every bucket is empty. -/
theorem deploy_eq_nil (s : String) (dos : DurableObjects) (reg : Registry)
    (h1 : (dos.implements.getD []).filter (isNewNS reg) = [])
    (h2 : (dos.implements.getD []).filterMap (staleEntry s reg) = []) :
    (deploy s dos reg).1 = [] ∧ (deploy s dos reg).2 = [] := by
  constructor
  · show ((dos.implements.getD []).filter (isNewNS reg)).map _
      ++ ((dos.implements.getD []).filterMap (staleEntry s reg)).map _ = []
    rw [h1, h2]
    rfl
  · show ((dos.implements.getD []).filter (isNewNS reg)).map _
      ++ ((dos.implements.getD []).filterMap (staleEntry s reg)).map _ = []
    rw [h1, h2]
    rfl

/-- Claim C6: finalize is idempotent.  Provided the implemented names are
distinct, the remote directory carries distinct ids, and the remote assigns
fresh ids to created namespaces, running refresh-then-finalize a second time
— against the directory obtained by applying the first run's create and
update calls — issues zero create calls and zero update calls (and reports
no touched names). -/
theorem finalize_idempotent (script_name : String) (dos : DurableObjects)
    (dir0 : List ApiDurableObjectNSResponse) (supply : Nat → String)
    (hN : ((dos.implements.getD []).map (fun a => a.namespace_name)).Nodup)
    (hDi : (dir0.map (fun r => r.id)).Nodup)
    (hF : ∀ k, supply k ∉ dir0.map (fun r => r.id)) :
    (deploy script_name dos (list_namespaces_by_name_to_id
        (applyCalls supply ⟨dir0, 0⟩
          (deploy script_name dos (list_namespaces_by_name_to_id dir0)).2).dir)).1 = []
    ∧ (deploy script_name dos (list_namespaces_by_name_to_id
        (applyCalls supply ⟨dir0, 0⟩
          (deploy script_name dos (list_namespaces_by_name_to_id dir0)).2).dir)).2 = [] := by
  have hd2 : (deploy script_name dos (list_namespaces_by_name_to_id dir0)).2
      = ((dos.implements.getD []).filter
            (isNewNS (list_namespaces_by_name_to_id dir0))).map
          (fun a => RemoteCall.create ⟨a.namespace_name, some ⟨script_name, a.class_name⟩⟩)
        ++ ((dos.implements.getD []).filterMap
              (staleEntry script_name (list_namespaces_by_name_to_id dir0))).map
          (fun p => RemoteCall.update p.1 ⟨script_name, p.2.class_name⟩) := rfl
  rw [hd2]
  have hmain := fun ns hns =>
    dir1_lookup script_name (dos.implements.getD []) dir0 supply hN hDi hF ns hns
  refine deploy_eq_nil _ _ _ ?_ ?_
  · rw [List.filter_eq_nil_iff]
    intro ns hns hcond
    obtain ⟨rec, hrec, _, _⟩ := hmain ns hns
    rw [isNewNS, hrec] at hcond
    simp at hcond
  · rw [List.filterMap_eq_nil_iff]
    intro ns hns
    obtain ⟨rec, hrec, hs, hc⟩ := hmain ns hns
    exact staleEntry_of_matched _ _ _ _ hrec hs hc

/-- Witness for the C6 theorem: an empty initial directory and one
implemented namespace — the first run creates it, the second run is silent. -/
theorem finalize_idempotent_witness :
    (deploy "s" ⟨some [⟨"Counter", "Counter"⟩], none⟩ (list_namespaces_by_name_to_id
        (applyCalls (fun _ => "fresh") ⟨[], 0⟩
          (deploy "s" ⟨some [⟨"Counter", "Counter"⟩], none⟩
            (list_namespaces_by_name_to_id [])).2).dir)).2 = [] :=
  (finalize_idempotent "s" ⟨some [⟨"Counter", "Counter"⟩], none⟩ [] (fun _ => "fresh")
    (by decide) (by simp) (by simp)).2

/-- Witness for the C8 theorem at a concrete non-success response. -/
theorem remote_error_contract_witness :
    ∃ m, create_ns ⟨"Counter", none⟩
        ⟨false, "500 Internal Server Error", "quota exceeded", none⟩ = .error (.remote m)
      ∧ substringOf "500 Internal Server Error" m ∧ substringOf "quota exceeded" m :=
  remote_error_contract.1 ⟨"Counter", none⟩
    ⟨false, "500 Internal Server Error", "quota exceeded", none⟩ rfl

/-- Claim C1 (code bug): for a namespace that is both implemented and used by
the unit and absent from the initial directory, the spec says `pre_upload`
succeeds with the used binding resolved to the placeholder's id.  On that very
input the code fails: the cycle-breaker inserts the created record keyed by
its remote id (`"abc123"`) instead of its name, so the binding resolver
cannot find `"Counter"` and `pre_upload` returns the not-found error even
though the placeholder create call was issued. -/
theorem preUpload_self_referential_bug :
    pre_upload (.ok [])
        (fun _ req => .ok ⟨req.name, "abc123", none, none⟩)
        ⟨some [⟨"Counter", "Counter"⟩], some [⟨some "Counter", none⟩]⟩
        [⟨some "Counter", none⟩]
      = .error (nsNotFoundMsg "Counter")
    ∧ (∃ reg, init_self_referential_namespaces
          (fun _ req => .ok ⟨req.name, "abc123", none, none⟩)
          ⟨some [⟨"Counter", "Counter"⟩], some [⟨some "Counter", none⟩]⟩
          (list_namespaces_by_name_to_id [])
        = .ok (reg, [⟨"Counter", none⟩])
        ∧ reg "abc123" = some ⟨"Counter", "abc123", none, none⟩
        ∧ reg "Counter" = none) := by
  refine ⟨rfl,
    ⟨insertReg (list_namespaces_by_name_to_id []) "abc123" ⟨"Counter", "abc123", none, none⟩,
      rfl, by decide, by decide⟩⟩

/-- Claim C2 (code bug): the spec says the cycle-breaker inserts each newly
created placeholder record into the registry keyed by the record's name, and
that every registry key equals the name of the record it maps to.  The code
inserts `insert(new_ns.id.clone(), new_ns)`: on a create response with id
`"abc123"` for name `"Counter"` the resulting registry maps the key
`"abc123"` to a record whose name differs from that key. -/
theorem registry_key_bug :
    ∃ reg creates,
      init_self_referential_namespaces
          (fun _ req => .ok ⟨req.name, "abc123", none, none⟩)
          ⟨some [⟨"Counter", "Counter"⟩], some [⟨some "Counter", none⟩]⟩
          emptyReg
        = .ok (reg, creates)
      ∧ ∃ r, reg "abc123" = some r ∧ r.name ≠ "abc123" := by
  refine ⟨insertReg emptyReg "abc123" ⟨"Counter", "abc123", none, none⟩,
    [⟨"Counter", none⟩], rfl, ⟨"Counter", "abc123", none, none⟩, by decide, by decide⟩

/-- Claim C3 (code bug): the spec computes the placeholder-create set as
(used ∩ implemented) minus the registry-known names.  The code builds its
`implemented_namespace_names` list from `durable_objects.uses` instead of
`implements`, so a name that is used but not implemented by the unit (here
`"A"`, with `implements = None`) and absent from the registry still receives
a placeholder create call. -/
theorem cycle_breaker_spurious_create :
    ∃ reg,
      init_self_referential_namespaces
          (fun _ req => .ok ⟨req.name, "id-a", none, none⟩)
          ⟨none, some [⟨some "A", none⟩]⟩
          emptyReg
        = .ok (reg, [⟨"A", none⟩]) := by
  exact ⟨insertReg emptyReg "id-a" ⟨"A", "id-a", none, none⟩, rfl⟩

/-- Claim C5 counterexample: a used binding with no declared name and no
identifier passes through `hydrate_target_with_ns_ids` untouched, so a
successful pre-upload phase does not give every UsedBinding a non-empty
`namespace_id` — only those with a declared name (or an id already set). -/
theorem hydrate_unnamed_binding_cex :
    hydrate_target_with_ns_ids emptyReg [⟨none, none⟩] = .ok [⟨none, none⟩]
    ∧ (UsedBinding.mk none none).namespace_id = none :=
  ⟨rfl, rfl⟩

/-- Claim C7 counterexample: for the listing call, a success response whose
parsed body is missing its `result` payload is not fatal — the code
substitutes the default empty listing (`unwrap_or_default`) and returns
success. -/
theorem list_missing_result_not_fatal :
    list_namespaces ⟨true, "200 OK", "", some none⟩ = .ok [] :=
  rfl
